import Mathlib

/-!
Shallow embedding of the freehand-stroke shape classifier of this
repository: the geometry helpers (`getDistance`, `getPathLength`,
`perpendicularDistance`), the Ramer-Douglas-Peucker polyline simplifier
(`ramerDouglasPeucker`) and the main classifier (`analyzeShape`).

Numbers are modelled by the real numbers; division is the total
division of the real field (x / 0 = 0).  The recursive simplifier is embedded with an
explicit fuel argument (`rdpFuel`), instantiated with the input length
by `ramerDouglasPeucker`; a fuel-sufficiency theorem shows the fuel
never runs out for nonnegative tolerances.  Each intermediate quantity
of `analyzeShape` (bounding box, fill ratio, simplified vertex list,
radius statistics) is exposed as a named definition so that theorems
can speak about the individual pipeline stages.
-/

noncomputable section

/-- A 2D point, mirroring the source interface `Point`. -/
structure Point where
  x : ℝ
  y : ℝ

/-- Default point used for out-of-range list reads. -/
def origin : Point := ⟨0, 0⟩

instance : Inhabited Point := ⟨origin⟩

/-- The shape kinds of a `ShapeAnalysis` result. -/
inductive ShapeType where
  | line
  | rect
  | triangle
  | circle
  | unknown
deriving DecidableEq

/-- Kind-specific payload carried in the `data` field of the result. -/
inductive ShapeData where
  | noData
  | lineData (start stop : Point)
  | rectData (left top width height : ℝ)
  | triangleData (centerX centerY width height : ℝ)
  | circleData (centerX centerY radius : ℝ)

/-- The classifier result, mirroring the source `ShapeAnalysis`. -/
structure ShapeAnalysis where
  type : ShapeType
  score : ℝ
  data : ShapeData

/-- Euclidean distance between two points (source `getDistance`). -/
def getDistance (p1 p2 : Point) : ℝ :=
  Real.sqrt ((p2.x - p1.x) ^ 2 + (p2.y - p1.y) ^ 2)

/-- Sum of consecutive distances along a stroke (source `getPathLength`). -/
def getPathLength : List Point → ℝ
  | [] => 0
  | [_] => 0
  | p :: q :: rest => getDistance p q + getPathLength (q :: rest)

/-- Perpendicular distance of a point from the chord through
`lineStart` and `lineEnd` (source `perpendicularDistance`): the chord
direction is normalized only when its magnitude is positive, then the
residual of the projection of the point vector is measured. -/
def perpendicularDistance (point lineStart lineEnd : Point) : ℝ :=
  let dx0 := lineEnd.x - lineStart.x
  let dy0 := lineEnd.y - lineStart.y
  let mag := Real.sqrt (dx0 * dx0 + dy0 * dy0)
  let dx := if mag > 0 then dx0 / mag else dx0
  let dy := if mag > 0 then dy0 / mag else dy0
  let pvx := point.x - lineStart.x
  let pvy := point.y - lineStart.y
  let pvdot := dx * pvx + dy * pvy
  let dsx := pvx - pvdot * dx
  let dsy := pvy - pvdot * dy
  Real.sqrt (dsx * dsx + dsy * dsy)

/-- One iteration of the scan loop of `ramerDouglasPeucker`: measure
the perpendicular distance of `points[i]` from the chord through the
first and last points and update the running `(dmax, index)` state on
a strictly greater distance. -/
def rdpStep (points : List Point) (acc : ℝ × ℕ) (i : ℕ) : ℝ × ℕ :=
  let d := perpendicularDistance (points.getD i origin)
    (points.getD 0 origin) (points.getD (points.length - 1) origin)
  if d > acc.1 then (d, i) else acc

/-- The scan loop of `ramerDouglasPeucker`: over interior indices
`1 .. length - 2` it tracks the maximal perpendicular distance from
the chord through the first and last points, together with the index
attaining it (strictly-greater updates, initial state `(0, 0)`). -/
def rdpScan (points : List Point) : ℝ × ℕ :=
  (List.range' 1 (points.length - 2)).foldl (rdpStep points) (0, 0)

/-- Fueled embedding of the recursive `ramerDouglasPeucker`: lists of
fewer than 3 points are returned unchanged; otherwise, if the maximal
interior deviation exceeds `epsilon`, the two halves split at the
maximizing index are simplified recursively and concatenated without
duplicating the split point, else the segment collapses to its two
endpoints.  The fuel only pads the recursion; `rdpFuel_fuel_congr`
below shows any fuel at least the list length gives the same value
when `0 ≤ epsilon`. -/
def rdpFuel : ℕ → List Point → ℝ → List Point
  | 0, points, _ => points
  | n + 1, points, epsilon =>
    if points.length < 3 then points
    else
      let s := rdpScan points
      if s.1 > epsilon then
        (rdpFuel n (points.take (s.2 + 1)) epsilon).dropLast ++
          rdpFuel n (points.drop s.2) epsilon
      else
        [points.headI, points.getD (points.length - 1) origin]

/-- The simplifier of the source, with fuel set to the input length. -/
def ramerDouglasPeucker (points : List Point) (epsilon : ℝ) : List Point :=
  rdpFuel points.length points epsilon

/-- First sample of the stroke (source local `start`). -/
def startOf (points : List Point) : Point := points.headI

/-- Last sample of the stroke (source local `end`). -/
def endOf (points : List Point) : Point := points.getD (points.length - 1) origin

/-- Ratio of endpoint displacement to total path length. -/
def linearityOf (points : List Point) : ℝ :=
  getDistance (startOf points) (endOf points) / getPathLength points

/-- Minimum x coordinate of the stroke.  The source folds from an
infinite initial value over all points; starting the fold from the
first sample is equivalent on every nonempty stroke, and the guard of
`analyzeShape` keeps empty input away from the bounding box. -/
def minXOf (points : List Point) : ℝ :=
  points.foldl (fun m p => min m p.x) (startOf points).x

/-- Maximum x coordinate of the stroke (bounding box fold). -/
def maxXOf (points : List Point) : ℝ :=
  points.foldl (fun m p => max m p.x) (startOf points).x

/-- Minimum y coordinate of the stroke (bounding box fold). -/
def minYOf (points : List Point) : ℝ :=
  points.foldl (fun m p => min m p.y) (startOf points).y

/-- Maximum y coordinate of the stroke (bounding box fold). -/
def maxYOf (points : List Point) : ℝ :=
  points.foldl (fun m p => max m p.y) (startOf points).y

/-- Bounding box width. -/
def widthOf (points : List Point) : ℝ := maxXOf points - minXOf points

/-- Bounding box height. -/
def heightOf (points : List Point) : ℝ := maxYOf points - minYOf points

/-- Bounding box diagonal. -/
def diagOf (points : List Point) : ℝ :=
  Real.sqrt (widthOf points * widthOf points + heightOf points * heightOf points)

/-- Bounding box center, x coordinate. -/
def centerXOf (points : List Point) : ℝ := minXOf points + widthOf points / 2

/-- Bounding box center, y coordinate. -/
def centerYOf (points : List Point) : ℝ := minYOf points + heightOf points / 2

/-- The signed shoelace sum over the stroke treated as a closed polygon
(index wraps modulo the length, as in the source loop). -/
def shoelaceSum (points : List Point) : ℝ :=
  (List.range points.length).foldl
    (fun a i =>
      let p := points.getD i origin
      let q := points.getD ((i + 1) % points.length) origin
      a + (p.x * q.y - q.x * p.y)) 0

/-- Absolute polygon area: half the absolute shoelace sum. -/
def areaOf (points : List Point) : ℝ := |shoelaceSum points| / 2

/-- Fraction of the bounding box covered by the polygon area. -/
def fillRatioOf (points : List Point) : ℝ :=
  areaOf points / (widthOf points * heightOf points)

/-- Dynamic simplification tolerance. -/
def epsilonOf (points : List Point) : ℝ := max 5 (diagOf points * 0.04)

/-- The simplified vertex list produced inside `analyzeShape`. -/
def simplifiedOf (points : List Point) : List Point :=
  ramerDouglasPeucker points (epsilonOf points)

/-- Closed-loop test of `analyzeShape`. -/
def isClosedOf (points : List Point) : Prop :=
  getDistance (simplifiedOf points).headI
      ((simplifiedOf points).getD ((simplifiedOf points).length - 1) origin) <
    diagOf points * 0.15 ∨
  getDistance (startOf points) (endOf points) < diagOf points * 0.15

instance (points : List Point) : Decidable (isClosedOf points) := by
  unfold isClosedOf
  infer_instance

/-- The vertex list after the closed-loop endpoint merge. -/
def verticesOf (points : List Point) : List Point :=
  let s := simplifiedOf points
  if isClosedOf points ∧ 3 < s.length then
    if getDistance s.headI (s.getD (s.length - 1) origin) < epsilonOf points * 2 then
      s.dropLast
    else s
  else s

/-- Number of vertices after simplification and merge. -/
def vCountOf (points : List Point) : ℕ := (verticesOf points).length

/-- Mean distance of the original points to the bounding box center. -/
def avgRadiusOf (points : List Point) : ℝ :=
  (points.foldl (fun a p => a + getDistance p ⟨centerXOf points, centerYOf points⟩) 0) /
    points.length

/-- Variance of the per-point distances to the bounding box center. -/
def radiusVarianceOf (points : List Point) : ℝ :=
  (points.foldl
    (fun a p =>
      a + (getDistance p ⟨centerXOf points, centerYOf points⟩ - avgRadiusOf points) ^ 2)
    0) / points.length

/-- Radius variance normalized by the squared mean radius. -/
def normalizedVarianceOf (points : List Point) : ℝ :=
  radiusVarianceOf points / (avgRadiusOf points * avgRadiusOf points)

/-- The main classifier (source `analyzeShape`): the sequence of early
returns of the source is rendered as a chain of conditionals over the
named pipeline stages, in the source order. -/
def analyzeShape (originalPoints : List Point) : ShapeAnalysis :=
  if originalPoints.length < 10 then ⟨ShapeType.unknown, 0, ShapeData.noData⟩
  else if linearityOf originalPoints > 0.94 then
    ⟨ShapeType.line, linearityOf originalPoints,
      ShapeData.lineData (startOf originalPoints) (endOf originalPoints)⟩
  else if fillRatioOf originalPoints > 0.80 then
    ⟨ShapeType.rect, fillRatioOf originalPoints,
      ShapeData.rectData (minXOf originalPoints) (minYOf originalPoints)
        (widthOf originalPoints) (heightOf originalPoints)⟩
  else if vCountOf originalPoints = 3 then
    ⟨ShapeType.triangle, 0.9,
      ShapeData.triangleData (centerXOf originalPoints) (centerYOf originalPoints)
        (widthOf originalPoints) (heightOf originalPoints)⟩
  else if 4 ≤ vCountOf originalPoints ∧ vCountOf originalPoints ≤ 6 then
    ⟨ShapeType.rect, 0.9,
      ShapeData.rectData (minXOf originalPoints) (minYOf originalPoints)
        (widthOf originalPoints) (heightOf originalPoints)⟩
  else if normalizedVarianceOf originalPoints < 0.05 ∧ fillRatioOf originalPoints > 0.6 then
    ⟨ShapeType.circle, 1 - normalizedVarianceOf originalPoints,
      ShapeData.circleData (centerXOf originalPoints) (centerYOf originalPoints)
        (avgRadiusOf originalPoints)⟩
  else if 0.35 < fillRatioOf originalPoints ∧ fillRatioOf originalPoints < 0.65 then
    ⟨ShapeType.triangle, 0.7,
      ShapeData.triangleData (centerXOf originalPoints) (centerYOf originalPoints)
        (widthOf originalPoints) (heightOf originalPoints)⟩
  else ⟨ShapeType.unknown, 0, ShapeData.noData⟩

/-- View of a point as a complex number, used to borrow the triangle
inequality of the Euclidean norm. -/
def toC (p : Point) : ℂ := ⟨p.x, p.y⟩

theorem getDistance_eq_abs (p q : Point) :
    getDistance p q = Complex.abs (toC q - toC p) := by
  rw [Complex.abs_apply, Complex.normSq_apply, getDistance]
  simp only [toC, Complex.sub_re, Complex.sub_im]
  ring_nf

theorem getDistance_nonneg (p q : Point) : 0 ≤ getDistance p q :=
  Real.sqrt_nonneg _

theorem getDistance_self (p : Point) : getDistance p p = 0 := by
  simp [getDistance]

theorem getDistance_triangle (p q r : Point) :
    getDistance p r ≤ getDistance p q + getDistance q r := by
  rw [getDistance_eq_abs, getDistance_eq_abs, getDistance_eq_abs]
  have h : toC r - toC p = (toC q - toC p) + (toC r - toC q) := by ring
  rw [h]
  exact (Complex.abs.add_le _ _).trans (by rw [add_comm])

theorem getPathLength_nonneg (points : List Point) : 0 ≤ getPathLength points := by
  induction points with
  | nil => simp [getPathLength]
  | cons p rest ih =>
    cases rest with
    | nil => simp [getPathLength]
    | cons q t =>
      rw [getPathLength]
      have := getDistance_nonneg p q
      have h2 : 0 ≤ getPathLength (q :: t) := ih
      linarith

/-- The displacement between first and last sample never exceeds the
path length: telescoping triangle inequality. -/
theorem displacement_le_pathLength :
    ∀ points : List Point, points ≠ [] →
      getDistance points.headI (points.getD (points.length - 1) origin) ≤
        getPathLength points := by
  intro points
  induction points with
  | nil => intro h; exact absurd rfl h
  | cons p rest ih =>
    intro _
    cases rest with
    | nil =>
      simp only [List.headI, List.length_cons, List.length_nil, List.getD]
      simp [getDistance_self, getPathLength]
    | cons q t =>
      have hget : (p :: q :: t).getD ((p :: q :: t).length - 1) origin =
          (q :: t).getD ((q :: t).length - 1) origin := by
        have e1 : (p :: q :: t).length - 1 = t.length + 1 := by simp
        have e2 : (q :: t).length - 1 = t.length := by simp
        rw [e1, e2, List.getD_cons_succ]
      rw [hget, getPathLength]
      have h1 := getDistance_triangle p q ((q :: t).getD ((q :: t).length - 1) origin)
      have h2 := ih (by simp)
      simp only [List.headI] at h2 ⊢
      linarith

theorem linearityOf_nonneg (points : List Point) : 0 ≤ linearityOf points :=
  div_nonneg (getDistance_nonneg _ _) (getPathLength_nonneg _)

theorem linearityOf_le_one (points : List Point) (h : points ≠ []) :
    linearityOf points ≤ 1 := by
  rw [linearityOf]
  rcases eq_or_lt_of_le (getPathLength_nonneg points) with hL | hL
  · have hd := displacement_le_pathLength points h
    have hd0 := getDistance_nonneg (startOf points) (endOf points)
    have : getDistance (startOf points) (endOf points) = 0 := by
      rw [startOf, endOf] at *
      linarith
    rw [this]
    simp
  · rw [div_le_one hL]
    exact displacement_le_pathLength points h

/-- A left fold that only ever adds nonnegative amounts to the
accumulator stays at least the starting value. -/
theorem foldl_add_nonneg {α : Type} (f : α → ℝ) (hf : ∀ a, 0 ≤ f a) :
    ∀ (l : List α) (c : ℝ), c ≤ l.foldl (fun a p => a + f p) c := by
  intro l
  induction l with
  | nil => intro c; simp
  | cons p t ih =>
    intro c
    rw [List.foldl_cons]
    calc c ≤ c + f p := by have := hf p; linarith
      _ ≤ _ := ih (c + f p)

theorem radiusVarianceOf_nonneg (points : List Point) :
    0 ≤ radiusVarianceOf points := by
  rw [radiusVarianceOf]
  apply div_nonneg _ (Nat.cast_nonneg _)
  exact foldl_add_nonneg _ (fun p => sq_nonneg _) points 0

theorem normalizedVarianceOf_nonneg (points : List Point) :
    0 ≤ normalizedVarianceOf points :=
  div_nonneg (radiusVarianceOf_nonneg points) (mul_self_nonneg _)

theorem areaOf_nonneg (points : List Point) : 0 ≤ areaOf points :=
  div_nonneg (abs_nonneg _) (by norm_num)

theorem widthOf_nonneg (points : List Point) : 0 ≤ widthOf points := by
  rw [widthOf, sub_nonneg, minXOf, maxXOf]
  induction points with
  | nil => simp
  | cons p t _ =>
    have key : ∀ (l : List Point) (a b : ℝ), a ≤ b →
        l.foldl (fun m p => min m p.x) a ≤ l.foldl (fun m p => max m p.x) b := by
      intro l
      induction l with
      | nil => intro a b hab; simpa using hab
      | cons q s ihl =>
        intro a b hab
        rw [List.foldl_cons, List.foldl_cons]
        exact ihl _ _ (le_trans (min_le_left a q.x) (le_trans hab (le_max_left b q.x)))
    exact key _ _ _ le_rfl

theorem heightOf_nonneg (points : List Point) : 0 ≤ heightOf points := by
  rw [heightOf, sub_nonneg, minYOf, maxYOf]
  induction points with
  | nil => simp
  | cons p t _ =>
    have key : ∀ (l : List Point) (a b : ℝ), a ≤ b →
        l.foldl (fun m p => min m p.y) a ≤ l.foldl (fun m p => max m p.y) b := by
      intro l
      induction l with
      | nil => intro a b hab; simpa using hab
      | cons q s ihl =>
        intro a b hab
        rw [List.foldl_cons, List.foldl_cons]
        exact ihl _ _ (le_trans (min_le_left a q.y) (le_trans hab (le_max_left b q.y)))
    exact key _ _ _ le_rfl

theorem fillRatioOf_nonneg (points : List Point) : 0 ≤ fillRatioOf points :=
  div_nonneg (areaOf_nonneg points) (mul_nonneg (widthOf_nonneg points) (heightOf_nonneg points))

/-- Claim C2 (amended): every score is nonnegative, and every score is
at most 1 except possibly that of a fill-shortcut rectangle, whose
score is exactly the fill ratio (which can exceed 1 on self-overlapping
strokes; see the counterexample). -/
theorem c2_score_bounds (points : List Point) :
    0 ≤ (analyzeShape points).score ∧
      ((analyzeShape points).score ≤ 1 ∨
        ((analyzeShape points).type = ShapeType.rect ∧
          (analyzeShape points).score = fillRatioOf points)) := by
  unfold analyzeShape
  split_ifs with h1 h2 h3 h4 h5 h6 h7
  · norm_num
  · have hne : points ≠ [] := by
      intro h
      rw [h] at h1
      simp at h1
    have := linearityOf_le_one points hne
    constructor
    · have := linearityOf_nonneg points
      simpa using this
    · left
      simpa using this
  · refine ⟨by simpa using fillRatioOf_nonneg points, Or.inr ⟨rfl, rfl⟩⟩
  · norm_num
  · norm_num
  · have h0 := normalizedVarianceOf_nonneg points
    constructor
    · simp only [ShapeAnalysis.score]
      linarith [h6.1]
    · left
      simp only [ShapeAnalysis.score]
      linarith
  · norm_num
  · norm_num

theorem c2_score_bounds_witness :
    0 ≤ (analyzeShape []).score ∧
      ((analyzeShape []).score ≤ 1 ∨
        ((analyzeShape []).type = ShapeType.rect ∧
          (analyzeShape []).score = fillRatioOf [])) :=
  c2_score_bounds []

/-- Claim C10: the score is 0 exactly on `unknown` results, and every
result of any other kind has score at least 0.7 (the smallest score a
classifying branch can emit, attained by the fuzzy triangle fallback). -/
theorem c10_score_zero_iff_unknown (points : List Point) :
    ((analyzeShape points).score = 0 ↔ (analyzeShape points).type = ShapeType.unknown) ∧
      ((analyzeShape points).type = ShapeType.unknown ∨
        0.7 ≤ (analyzeShape points).score) := by
  unfold analyzeShape
  split_ifs with h1 h2 h3 h4 h5 h6 h7
  · simp
  · simp only [ShapeAnalysis.score, ShapeAnalysis.type]
    constructor
    · constructor
      · intro h0
        rw [h0] at h2
        norm_num at h2
      · intro h
        exact absurd h (by simp)
    · right
      linarith
  · simp only [ShapeAnalysis.score, ShapeAnalysis.type]
    constructor
    · constructor
      · intro h0
        rw [h0] at h3
        norm_num at h3
      · intro h
        exact absurd h (by simp)
    · right
      linarith
  · constructor
    · constructor
      · intro h0
        norm_num at h0
      · intro h
        exact absurd h (by simp)
    · right
      norm_num
  · constructor
    · constructor
      · intro h0
        norm_num at h0
      · intro h
        exact absurd h (by simp)
    · right
      norm_num
  · have h0 := normalizedVarianceOf_nonneg points
    simp only [ShapeAnalysis.score, ShapeAnalysis.type]
    constructor
    · constructor
      · intro hz
        have : normalizedVarianceOf points = 1 := by linarith
        rw [this] at h6
        norm_num at h6
      · intro h
        exact absurd h (by simp)
    · right
      linarith [h6.1]
  · constructor
    · constructor
      · intro h0
        norm_num at h0
      · intro h
        exact absurd h (by simp)
    · right
      norm_num
  · simp

theorem c10_witness :
    (((analyzeShape []).score = 0 ↔ (analyzeShape []).type = ShapeType.unknown) ∧
      ((analyzeShape []).type = ShapeType.unknown ∨ 0.7 ≤ (analyzeShape []).score)) :=
  c10_score_zero_iff_unknown []

theorem perpendicularDistance_nonneg (p a b : Point) :
    0 ≤ perpendicularDistance p a b :=
  Real.sqrt_nonneg _

/-- The scan of the simplifier either never updates (state `(0, 0)`)
or ends with a positive maximum attained at an interior index. -/
theorem rdpScan_cases (points : List Point) :
    rdpScan points = (0, 0) ∨
      (0 < (rdpScan points).1 ∧ 1 ≤ (rdpScan points).2 ∧
        (rdpScan points).2 ≤ points.length - 2) := by
  rw [rdpScan]
  have key : ∀ (l : List ℕ) (acc : ℝ × ℕ),
      (∀ i ∈ l, 1 ≤ i ∧ i ≤ points.length - 2) →
      (acc = (0, 0) ∨ (0 < acc.1 ∧ 1 ≤ acc.2 ∧ acc.2 ≤ points.length - 2)) →
      (l.foldl (rdpStep points) acc = (0, 0) ∨
        (0 < (l.foldl (rdpStep points) acc).1 ∧
          1 ≤ (l.foldl (rdpStep points) acc).2 ∧
          (l.foldl (rdpStep points) acc).2 ≤ points.length - 2)) := by
    intro l
    induction l with
    | nil =>
      intro acc _ hacc
      simpa using hacc
    | cons i t ih =>
      intro acc hl hacc
      rw [List.foldl_cons]
      apply ih
      · intro j hj
        exact hl j (List.mem_cons_of_mem _ hj)
      · rw [rdpStep]
        by_cases hd : perpendicularDistance (points.getD i origin)
            (points.getD 0 origin) (points.getD (points.length - 1) origin) > acc.1
        · rw [if_pos hd]
          right
          have hacc1 : 0 ≤ acc.1 := by
            rcases hacc with h | h
            · rw [h]
            · exact le_of_lt h.1
          exact ⟨lt_of_le_of_lt hacc1 hd, (hl i (List.mem_cons_self _ _)).1,
            (hl i (List.mem_cons_self _ _)).2⟩
        · rw [if_neg hd]
          exact hacc
  apply key
  · intro i hi
    rw [List.mem_range'_1] at hi
    omega
  · left
    rfl

theorem rdpFuel_short (n : ℕ) (points : List Point) (epsilon : ℝ)
    (h : points.length < 3) : rdpFuel n points epsilon = points := by
  cases n with
  | zero => rfl
  | succ n =>
    simp only [rdpFuel]
    rw [if_pos h]

/-- RDP invariant (a): the simplified list is never longer than the
input, whatever the fuel and tolerance. -/
theorem rdpFuel_length (n : ℕ) :
    ∀ (points : List Point) (epsilon : ℝ),
      (rdpFuel n points epsilon).length ≤ points.length := by
  induction n with
  | zero =>
    intro points epsilon
    exact le_rfl
  | succ n ih =>
    intro points epsilon
    simp only [rdpFuel]
    split_ifs with h3 hd
    · exact le_rfl
    · rw [List.length_append, List.length_dropLast]
      have l1 := ih (points.take ((rdpScan points).2 + 1)) epsilon
      have l2 := ih (points.drop (rdpScan points).2) epsilon
      rw [List.length_take] at l1
      rw [List.length_drop] at l2
      omega
    · simp only [List.length_cons, List.length_nil]
      omega

theorem head?_eq_some_headI {α : Type} [Inhabited α] (l : List α) (h : l ≠ []) :
    l.head? = some l.headI := by
  cases l with
  | nil => exact absurd rfl h
  | cons a t => rfl

theorem getLast?_eq_getD (l : List Point) (h : l ≠ []) :
    l.getLast? = some (l.getD (l.length - 1) origin) := by
  have hlt : l.length - 1 < l.length := by
    cases l with
    | nil => exact absurd rfl h
    | cons a t => simp
  rw [List.getLast?_eq_get?, List.getD_eq_getD_get?, List.get?_eq_get hlt]
  rfl

theorem head?_dropLast {α : Type} (l : List α) (h : 2 ≤ l.length) :
    l.dropLast.head? = l.head? := by
  match l, h with
  | a :: b :: t, _ => simp

theorem getLast?_drop_of_lt {α : Type} (l : List α) (n : ℕ) (h : n < l.length) :
    (l.drop n).getLast? = l.getLast? := by
  rw [List.getLast?_eq_get?, List.getLast?_eq_get?, List.get?_drop, List.length_drop]
  congr 1
  omega

theorem head?_take_succ {α : Type} (l : List α) (k : ℕ) :
    (l.take (k + 1)).head? = l.head? := by
  cases l with
  | nil => rfl
  | cons a t => rfl

/-- RDP invariant (b): head and last of the input survive
simplification, and at least two points survive from two or more. -/
theorem rdpFuel_ends (n : ℕ) :
    ∀ (points : List Point) (epsilon : ℝ), points ≠ [] →
      (rdpFuel n points epsilon).head? = points.head? ∧
      (rdpFuel n points epsilon).getLast? = points.getLast? ∧
      (2 ≤ points.length → 2 ≤ (rdpFuel n points epsilon).length) := by
  induction n with
  | zero =>
    intro points epsilon _
    exact ⟨rfl, rfl, fun h2 => h2⟩
  | succ n ih =>
    intro points epsilon hne
    by_cases h3 : points.length < 3
    · rw [rdpFuel_short _ _ _ h3]
      exact ⟨rfl, rfl, fun h2 => h2⟩
    · have hlen3 : 3 ≤ points.length := not_lt.mp h3
      simp only [rdpFuel]
      rw [if_neg h3]
      by_cases hd : (rdpScan points).1 > epsilon
      · rw [if_pos hd]
        rcases Nat.eq_zero_or_pos (rdpScan points).2 with hz | hpos
        · obtain ⟨p, t, rfl⟩ := List.exists_cons_of_ne_nil hne
          rw [hz]
          have ht1 : (p :: t).take (0 + 1) = [p] := by simp
          rw [ht1, rdpFuel_short n [p] epsilon (by simp), List.drop_zero]
          have hdl : ([p] : List Point).dropLast = [] := rfl
          rw [hdl, List.nil_append]
          exact ih (p :: t) epsilon (by simp)
        · have hidx : (rdpScan points).2 ≤ points.length - 2 := by
            rcases rdpScan_cases points with hzero | hb
            · rw [hzero] at hpos
              simp at hpos
            · exact hb.2.2
          have htlen : (points.take ((rdpScan points).2 + 1)).length =
              (rdpScan points).2 + 1 := by
            rw [List.length_take]
            omega
          have hdlen : (points.drop (rdpScan points).2).length =
              points.length - (rdpScan points).2 := List.length_drop _ _
          have htne : points.take ((rdpScan points).2 + 1) ≠ [] := by
            intro h
            rw [h] at htlen
            simp at htlen
          have hdne : points.drop (rdpScan points).2 ≠ [] := by
            intro h
            rw [h] at hdlen
            simp at hdlen
            omega
          obtain ⟨ih1h, ih1l, ih1n⟩ := ih (points.take ((rdpScan points).2 + 1)) epsilon htne
          obtain ⟨ih2h, ih2l, ih2n⟩ := ih (points.drop (rdpScan points).2) epsilon hdne
          have hr1 : 2 ≤ (rdpFuel n (points.take ((rdpScan points).2 + 1)) epsilon).length := by
            apply ih1n
            rw [htlen]
            omega
          have hr2 : 2 ≤ (rdpFuel n (points.drop (rdpScan points).2) epsilon).length := by
            apply ih2n
            rw [hdlen]
            omega
          have hdlne : (rdpFuel n (points.take ((rdpScan points).2 + 1)) epsilon).dropLast ≠ [] := by
            intro h
            have := congrArg List.length h
            rw [List.length_dropLast] at this
            simp at this
            omega
          have hr2ne : rdpFuel n (points.drop (rdpScan points).2) epsilon ≠ [] := by
            intro h
            rw [h] at hr2
            simp at hr2
          refine ⟨?_, ?_, ?_⟩
          · rw [List.head?_append_of_ne_nil _ hdlne, head?_dropLast _ hr1, ih1h,
              head?_take_succ]
          · rw [List.getLast?_append_of_ne_nil _ hr2ne, ih2l,
              getLast?_drop_of_lt _ _ (by omega)]
          · intro _
            rw [List.length_append]
            omega
      · rw [if_neg hd]
        refine ⟨?_, ?_, ?_⟩
        · rw [head?_eq_some_headI points hne]
          rfl
        · rw [getLast?_eq_getD points hne]
          rfl
        · intro _
          simp

/-- Claim C3: the simplifier (a) never lengthens its input, (b) keeps
the original first and last points of a nonempty input, and (c) returns
inputs of fewer than 3 points unchanged, for every tolerance. -/
theorem c3_rdp_invariants (points : List Point) (epsilon : ℝ) :
    (ramerDouglasPeucker points epsilon).length ≤ points.length ∧
      (points ≠ [] →
        (ramerDouglasPeucker points epsilon).head? = points.head? ∧
        (ramerDouglasPeucker points epsilon).getLast? = points.getLast?) ∧
      (points.length < 3 → ramerDouglasPeucker points epsilon = points) :=
  ⟨rdpFuel_length _ _ _,
    fun h => ⟨(rdpFuel_ends _ _ _ h).1, (rdpFuel_ends _ _ _ h).2.1⟩,
    fun h => rdpFuel_short _ _ _ h⟩

/-- A concrete three-point bend used as a witness input. -/
def exV : List Point := [⟨0, 0⟩, ⟨1, 1⟩, ⟨2, 0⟩]

theorem c3_witness :
    (ramerDouglasPeucker exV 1).length ≤ exV.length ∧
      (ramerDouglasPeucker exV 1).head? = exV.head? ∧
      (ramerDouglasPeucker exV 1).getLast? = exV.getLast? :=
  ⟨(c3_rdp_invariants exV 1).1,
    ((c3_rdp_invariants exV 1).2.1 (by simp [exV])).1,
    ((c3_rdp_invariants exV 1).2.1 (by simp [exV])).2⟩

/-- Any two sufficient fuels give the same simplification when the
tolerance is nonnegative: the recursion of the source terminates
within a depth equal to the input length. -/
theorem rdpFuel_congr :
    ∀ (k : ℕ) (points : List Point) (epsilon : ℝ) (n m : ℕ),
      points.length ≤ k → 0 ≤ epsilon → points.length ≤ n → points.length ≤ m →
      rdpFuel n points epsilon = rdpFuel m points epsilon := by
  intro k
  induction k with
  | zero =>
    intro points epsilon n m hk _ _ _
    have hnil : points = [] := List.length_eq_zero.mp (Nat.le_zero.mp hk)
    rw [hnil, rdpFuel_short _ _ _ (by simp), rdpFuel_short _ _ _ (by simp)]
  | succ k ih =>
    intro points epsilon n m hk heps hn hm
    by_cases h3 : points.length < 3
    · rw [rdpFuel_short _ _ _ h3, rdpFuel_short _ _ _ h3]
    · have hlen3 : 3 ≤ points.length := not_lt.mp h3
      obtain ⟨n, rfl⟩ : ∃ j, n = j + 1 := ⟨n - 1, by omega⟩
      obtain ⟨m, rfl⟩ : ∃ j, m = j + 1 := ⟨m - 1, by omega⟩
      simp only [rdpFuel]
      rw [if_neg h3, if_neg h3]
      by_cases hd : (rdpScan points).1 > epsilon
      · rw [if_pos hd, if_pos hd]
        rcases rdpScan_cases points with hzero | hb
        · exfalso
          rw [hzero] at hd
          simp only at hd
          exact absurd (lt_of_le_of_lt heps hd) (lt_irrefl 0)
        · have htk : (points.take ((rdpScan points).2 + 1)).length ≤ k := by
            rw [List.length_take]
            omega
          have hdk : (points.drop (rdpScan points).2).length ≤ k := by
            rw [List.length_drop]
            omega
          have htn : (points.take ((rdpScan points).2 + 1)).length ≤ n := by
            rw [List.length_take]
            omega
          have htm : (points.take ((rdpScan points).2 + 1)).length ≤ m := by
            rw [List.length_take]
            omega
          have hdn : (points.drop (rdpScan points).2).length ≤ n := by
            rw [List.length_drop]
            omega
          have hdm : (points.drop (rdpScan points).2).length ≤ m := by
            rw [List.length_drop]
            omega
          rw [ih (points.take ((rdpScan points).2 + 1)) epsilon n m htk heps htn htm,
            ih (points.drop (rdpScan points).2) epsilon n m hdk heps hdn hdm]
      · rw [if_neg hd, if_neg hd]

/-- Claim C8: with fuel at least the input length the fueled recursion
agrees with `ramerDouglasPeucker` (the recursion of the source
terminates within that depth for any nonnegative tolerance), and the
classifier is total: every input has exactly one result. -/
theorem c8_totality (points : List Point) (epsilon : ℝ) (n : ℕ)
    (heps : 0 ≤ epsilon) (hn : points.length ≤ n) :
    rdpFuel n points epsilon = ramerDouglasPeucker points epsilon ∧
      ∃! r : ShapeAnalysis, analyzeShape points = r := by
  constructor
  · exact rdpFuel_congr points.length points epsilon n points.length le_rfl heps hn le_rfl
  · exact ⟨analyzeShape points, rfl, fun r hr => hr.symm⟩

theorem c8_witness :
    rdpFuel 7 exV 1 = ramerDouglasPeucker exV 1 ∧
      ∃! r : ShapeAnalysis, analyzeShape exV = r :=
  c8_totality exV 1 7 (by norm_num) (by simp [exV])

/-- Claim C7: every input of fewer than 10 points is classified
`unknown` with score 0 and empty payload, whatever its geometry. -/
theorem c7_min_length (points : List Point) (h : points.length < 10) :
    analyzeShape points = ⟨ShapeType.unknown, 0, ShapeData.noData⟩ := by
  unfold analyzeShape
  rw [if_pos h]

theorem c7_witness :
    ([] : List Point).length < 10 ∧
      analyzeShape [] = ⟨ShapeType.unknown, 0, ShapeData.noData⟩ :=
  ⟨by decide, c7_min_length [] (by decide)⟩

theorem sqrt_eq_of_sq (a b : ℝ) (hb : 0 ≤ b) (h : b ^ 2 = a) : Real.sqrt a = b := by
  rw [← h, Real.sqrt_sq hb]

/-- Algebraic core of the projection-residual computation: the squared
residual equals the squared cross product over the squared chord
magnitude. -/
theorem residual_sq (pvx pvy dx0 dy0 m : ℝ) (hm : m ≠ 0)
    (hs : m * m = dx0 * dx0 + dy0 * dy0) :
    (pvx - (dx0 / m * pvx + dy0 / m * pvy) * (dx0 / m)) *
        (pvx - (dx0 / m * pvx + dy0 / m * pvy) * (dx0 / m)) +
      (pvy - (dx0 / m * pvx + dy0 / m * pvy) * (dy0 / m)) *
        (pvy - (dx0 / m * pvx + dy0 / m * pvy) * (dy0 / m)) =
      ((pvx * dy0 - pvy * dx0) / m) ^ 2 := by
  have hs0 : dx0 * dx0 + dy0 * dy0 ≠ 0 := by
    rw [← hs]
    exact mul_ne_zero hm hm
  have h1 : pvx - (dx0 / m * pvx + dy0 / m * pvy) * (dx0 / m) =
      (pvx * (m * m) - (dx0 * pvx + dy0 * pvy) * dx0) / (m * m) := by
    field_simp
  have h2 : pvy - (dx0 / m * pvx + dy0 / m * pvy) * (dy0 / m) =
      (pvy * (m * m) - (dx0 * pvx + dy0 * pvy) * dy0) / (m * m) := by
    field_simp
  have h3 : ((pvx * dy0 - pvy * dx0) / m) ^ 2 =
      (pvx * dy0 - pvy * dx0) ^ 2 / (m * m) := by
    rw [div_pow]
    congr 1
    ring
  rw [h1, h2, h3, hs]
  field_simp
  ring

/-- On a nondegenerate chord, the perpendicular distance of the source
is the absolute cross product divided by the chord magnitude. -/
theorem perpendicularDistance_eq (p a b : Point)
    (h : 0 < (b.x - a.x) * (b.x - a.x) + (b.y - a.y) * (b.y - a.y)) :
    perpendicularDistance p a b =
      |(p.x - a.x) * (b.y - a.y) - (p.y - a.y) * (b.x - a.x)| /
        Real.sqrt ((b.x - a.x) * (b.x - a.x) + (b.y - a.y) * (b.y - a.y)) := by
  have hm : 0 < Real.sqrt ((b.x - a.x) * (b.x - a.x) + (b.y - a.y) * (b.y - a.y)) :=
    Real.sqrt_pos.mpr h
  have hmne : Real.sqrt ((b.x - a.x) * (b.x - a.x) + (b.y - a.y) * (b.y - a.y)) ≠ 0 :=
    ne_of_gt hm
  have hs : Real.sqrt ((b.x - a.x) * (b.x - a.x) + (b.y - a.y) * (b.y - a.y)) *
      Real.sqrt ((b.x - a.x) * (b.x - a.x) + (b.y - a.y) * (b.y - a.y)) =
      (b.x - a.x) * (b.x - a.x) + (b.y - a.y) * (b.y - a.y) :=
    Real.mul_self_sqrt h.le
  simp only [perpendicularDistance]
  split_ifs with hc
  · rw [residual_sq (p.x - a.x) (p.y - a.y) (b.x - a.x) (b.y - a.y) _ hmne hs,
      Real.sqrt_sq_eq_abs, abs_div, abs_of_pos hm]
  · exact absurd hm hc

/-- On a degenerate (zero-length) chord the perpendicular distance
falls back to the plain distance to the shared endpoint. -/
theorem perpendicularDistance_degenerate (p a b : Point)
    (hx : b.x = a.x) (hy : b.y = a.y) :
    perpendicularDistance p a b =
      Real.sqrt ((p.x - a.x) * (p.x - a.x) + (p.y - a.y) * (p.y - a.y)) := by
  simp only [perpendicularDistance, hx, hy, sub_self, mul_zero, zero_mul, add_zero,
    Real.sqrt_zero, gt_iff_lt, lt_irrefl, if_false, zero_div]
  norm_num

/-- Ten evenly spaced collinear points: the canonical line stroke. -/
def exLine : List Point :=
  [⟨0, 0⟩, ⟨1, 0⟩, ⟨2, 0⟩, ⟨3, 0⟩, ⟨4, 0⟩, ⟨5, 0⟩, ⟨6, 0⟩, ⟨7, 0⟩, ⟨8, 0⟩, ⟨9, 0⟩]

theorem exLine_pathLength : getPathLength exLine = 9 := by
  simp only [exLine, getPathLength, getDistance]
  norm_num [Real.sqrt_one]

theorem exLine_linearity : linearityOf exLine = 1 := by
  have h81 : Real.sqrt 81 = 9 := sqrt_eq_of_sq 81 9 (by norm_num) (by norm_num)
  have hd : getDistance (startOf exLine) (endOf exLine) = 9 := by
    have hs : startOf exLine = ⟨0, 0⟩ := rfl
    have he : endOf exLine = ⟨9, 0⟩ := rfl
    rw [hs, he, getDistance]
    norm_num [h81]
  rw [linearityOf, hd, exLine_pathLength]
  norm_num

/-- Claim C4: a stroke of at least 10 points whose linearity exceeds
0.94 is classified as a line with the linearity as score and the first
and last samples as payload; the hypotheses mention no bounding-box or
area quantity, reflecting that this test precedes them. -/
theorem c4_line_first (points : List Point) (h10 : 10 ≤ points.length)
    (hl : linearityOf points > 0.94) :
    analyzeShape points =
      ⟨ShapeType.line, linearityOf points,
        ShapeData.lineData (startOf points) (endOf points)⟩ := by
  unfold analyzeShape
  rw [if_neg (by omega : ¬points.length < 10), if_pos hl]

theorem c4_witness :
    analyzeShape exLine =
      ⟨ShapeType.line, linearityOf exLine,
        ShapeData.lineData (startOf exLine) (endOf exLine)⟩ :=
  c4_line_first exLine (by norm_num [exLine])
    (by rw [exLine_linearity]; norm_num)

theorem sqrt_four : Real.sqrt 4 = 2 := sqrt_eq_of_sq 4 2 (by norm_num) (by norm_num)

/-- A stroke tracing the perimeter of the axis-aligned square of side 4
twice: its shoelace area doubles, driving the fill ratio to 2. -/
def exC2 : List Point :=
  [⟨0, 0⟩, ⟨2, 0⟩, ⟨4, 0⟩, ⟨4, 2⟩, ⟨4, 4⟩, ⟨2, 4⟩, ⟨0, 4⟩, ⟨0, 2⟩,
   ⟨0, 0⟩, ⟨2, 0⟩, ⟨4, 0⟩, ⟨4, 2⟩, ⟨4, 4⟩, ⟨2, 4⟩, ⟨0, 4⟩, ⟨0, 2⟩]

theorem exC2_pathLength : getPathLength exC2 = 30 := by
  simp only [exC2, getPathLength, getDistance]
  norm_num [sqrt_four]

theorem exC2_linearity : linearityOf exC2 = 1 / 15 := by
  have hd : getDistance (startOf exC2) (endOf exC2) = 2 := by
    have hs : startOf exC2 = ⟨0, 0⟩ := rfl
    have he : endOf exC2 = ⟨0, 2⟩ := rfl
    rw [hs, he, getDistance]
    norm_num [sqrt_four]
  rw [linearityOf, hd, exC2_pathLength]
  norm_num

theorem exC2_shoelace : shoelaceSum exC2 = 64 := by
  have h : shoelaceSum exC2 =
      0 + ((0 : ℝ) * 0 - 2 * 0) + (2 * 0 - 4 * 0) + (4 * 2 - 4 * 0) + (4 * 4 - 4 * 2) +
        (4 * 4 - 2 * 4) + (2 * 4 - 0 * 4) + (0 * 2 - 0 * 4) + (0 * 0 - 0 * 2) +
        (0 * 0 - 2 * 0) + (2 * 0 - 4 * 0) + (4 * 2 - 4 * 0) + (4 * 4 - 4 * 2) +
        (4 * 4 - 2 * 4) + (2 * 4 - 0 * 4) + (0 * 2 - 0 * 4) + (0 * 0 - 0 * 2) := rfl
  rw [h]
  norm_num

theorem exC2_area : areaOf exC2 = 32 := by
  rw [areaOf, exC2_shoelace]
  norm_num

theorem exC2_minX : minXOf exC2 = 0 := by
  simp only [minXOf, startOf, exC2, List.headI, List.foldl_cons, List.foldl_nil]
  norm_num [min_def]

theorem exC2_maxX : maxXOf exC2 = 4 := by
  simp only [maxXOf, startOf, exC2, List.headI, List.foldl_cons, List.foldl_nil]
  norm_num [max_def]

theorem exC2_minY : minYOf exC2 = 0 := by
  simp only [minYOf, startOf, exC2, List.headI, List.foldl_cons, List.foldl_nil]
  norm_num [min_def]

theorem exC2_maxY : maxYOf exC2 = 4 := by
  simp only [maxYOf, startOf, exC2, List.headI, List.foldl_cons, List.foldl_nil]
  norm_num [max_def]

theorem exC2_fill : fillRatioOf exC2 = 2 := by
  rw [fillRatioOf, exC2_area, widthOf, heightOf, exC2_minX, exC2_maxX, exC2_minY, exC2_maxY]
  norm_num

/-- Full evaluation of the classifier on the double square: the fill
shortcut fires with score 2. -/
theorem exC2_analyze :
    analyzeShape exC2 =
      ⟨ShapeType.rect, fillRatioOf exC2,
        ShapeData.rectData (minXOf exC2) (minYOf exC2) (widthOf exC2) (heightOf exC2)⟩ := by
  unfold analyzeShape
  rw [if_neg (by norm_num [exC2] : ¬(exC2.length < 10)),
    if_neg (by rw [exC2_linearity]; norm_num : ¬(linearityOf exC2 > 0.94)),
    if_pos (by rw [exC2_fill]; norm_num : fillRatioOf exC2 > 0.80)]

/-- Claim C2 counterexample: on the double square the returned score is
the fill ratio 2, outside the interval [0, 1] asserted by the claim. -/
theorem c2_counterexample :
    (analyzeShape exC2).type = ShapeType.rect ∧ (analyzeShape exC2).score = 2 ∧
      ¬((analyzeShape exC2).score ≤ 1) := by
  rw [exC2_analyze]
  refine ⟨rfl, ?_, ?_⟩
  · simp only [ShapeAnalysis.score]
    exact exC2_fill
  · simp only [ShapeAnalysis.score]
    rw [exC2_fill]
    norm_num

/-- Claim C5: a stroke of at least 10 points that fails the line test
and whose fill ratio exceeds 0.80 is classified as a rectangle with the
fill ratio as score and the bounding box as payload; no hypothesis
mentions the simplifier or any later pipeline stage. -/
theorem c5_rect_shortcut (points : List Point) (h10 : 10 ≤ points.length)
    (hl : ¬(linearityOf points > 0.94)) (hf : fillRatioOf points > 0.80) :
    analyzeShape points =
      ⟨ShapeType.rect, fillRatioOf points,
        ShapeData.rectData (minXOf points) (minYOf points)
          (widthOf points) (heightOf points)⟩ := by
  unfold analyzeShape
  rw [if_neg (by omega : ¬points.length < 10), if_neg hl, if_pos hf]

theorem c5_witness :
    analyzeShape exC2 =
      ⟨ShapeType.rect, fillRatioOf exC2,
        ShapeData.rectData (minXOf exC2) (minYOf exC2)
          (widthOf exC2) (heightOf exC2)⟩ :=
  c5_rect_shortcut exC2 (by norm_num [exC2])
    (by rw [exC2_linearity]; norm_num) (by rw [exC2_fill]; norm_num)

theorem sqrt_sixtyfour : Real.sqrt 64 = 8 := sqrt_eq_of_sq 64 8 (by norm_num) (by norm_num)

/-- A 10-point stroke running straight from x = 0 to x = 8 on the
x-axis and jumping back: its bounding box has height 0, yet the
classifier returns `triangle` (3 simplified vertices), refuting the
claim that degenerate boxes always yield `unknown`. -/
def exC1 : List Point :=
  [⟨0, 0⟩, ⟨1, 0⟩, ⟨2, 0⟩, ⟨3, 0⟩, ⟨4, 0⟩, ⟨5, 0⟩, ⟨6, 0⟩, ⟨7, 0⟩, ⟨8, 0⟩, ⟨0, 0⟩]

/-- The first nine points of `exC1` (the forward sweep). -/
def exC1a : List Point :=
  [⟨0, 0⟩, ⟨1, 0⟩, ⟨2, 0⟩, ⟨3, 0⟩, ⟨4, 0⟩, ⟨5, 0⟩, ⟨6, 0⟩, ⟨7, 0⟩, ⟨8, 0⟩]

theorem perp_zero_chord_axis (k : ℝ) (hk : 0 ≤ k) :
    perpendicularDistance ⟨k, 0⟩ ⟨0, 0⟩ ⟨0, 0⟩ = k := by
  rw [perpendicularDistance_degenerate _ _ _ rfl rfl]
  simp [Real.sqrt_mul_self hk]

theorem perp_horizontal_chord (k : ℝ) :
    perpendicularDistance ⟨k, 0⟩ ⟨0, 0⟩ ⟨8, 0⟩ = 0 := by
  rw [perpendicularDistance_eq _ _ _ (by norm_num)]
  simp

/-- One recursive step of the fueled simplifier, split branch. -/
theorem rdpFuel_succ_pos (n : ℕ) (points : List Point) (epsilon : ℝ)
    (h3 : ¬points.length < 3) (hd : (rdpScan points).1 > epsilon) :
    rdpFuel (n + 1) points epsilon =
      (rdpFuel n (points.take ((rdpScan points).2 + 1)) epsilon).dropLast ++
        rdpFuel n (points.drop (rdpScan points).2) epsilon := by
  simp only [rdpFuel]
  rw [if_neg h3, if_pos hd]

/-- One recursive step of the fueled simplifier, collapse branch. -/
theorem rdpFuel_succ_neg (n : ℕ) (points : List Point) (epsilon : ℝ)
    (h3 : ¬points.length < 3) (hd : ¬(rdpScan points).1 > epsilon) :
    rdpFuel (n + 1) points epsilon =
      [points.headI, points.getD (points.length - 1) origin] := by
  simp only [rdpFuel]
  rw [if_neg h3, if_neg hd]

theorem exC1_scan : rdpScan exC1 = (8, 8) := by
  have s1 : rdpStep exC1 (0, 0) 1 = (1, 1) := by
    rw [rdpStep, show exC1.getD 1 origin = ⟨1, 0⟩ from rfl,
      show exC1.getD 0 origin = ⟨0, 0⟩ from rfl,
      show exC1.getD (exC1.length - 1) origin = ⟨0, 0⟩ from rfl,
      perp_zero_chord_axis 1 (by norm_num)]
    norm_num
  have s2 : rdpStep exC1 (1, 1) 2 = (2, 2) := by
    rw [rdpStep, show exC1.getD 2 origin = ⟨2, 0⟩ from rfl,
      show exC1.getD 0 origin = ⟨0, 0⟩ from rfl,
      show exC1.getD (exC1.length - 1) origin = ⟨0, 0⟩ from rfl,
      perp_zero_chord_axis 2 (by norm_num)]
    norm_num
  have s3 : rdpStep exC1 (2, 2) 3 = (3, 3) := by
    rw [rdpStep, show exC1.getD 3 origin = ⟨3, 0⟩ from rfl,
      show exC1.getD 0 origin = ⟨0, 0⟩ from rfl,
      show exC1.getD (exC1.length - 1) origin = ⟨0, 0⟩ from rfl,
      perp_zero_chord_axis 3 (by norm_num)]
    norm_num
  have s4 : rdpStep exC1 (3, 3) 4 = (4, 4) := by
    rw [rdpStep, show exC1.getD 4 origin = ⟨4, 0⟩ from rfl,
      show exC1.getD 0 origin = ⟨0, 0⟩ from rfl,
      show exC1.getD (exC1.length - 1) origin = ⟨0, 0⟩ from rfl,
      perp_zero_chord_axis 4 (by norm_num)]
    norm_num
  have s5 : rdpStep exC1 (4, 4) 5 = (5, 5) := by
    rw [rdpStep, show exC1.getD 5 origin = ⟨5, 0⟩ from rfl,
      show exC1.getD 0 origin = ⟨0, 0⟩ from rfl,
      show exC1.getD (exC1.length - 1) origin = ⟨0, 0⟩ from rfl,
      perp_zero_chord_axis 5 (by norm_num)]
    norm_num
  have s6 : rdpStep exC1 (5, 5) 6 = (6, 6) := by
    rw [rdpStep, show exC1.getD 6 origin = ⟨6, 0⟩ from rfl,
      show exC1.getD 0 origin = ⟨0, 0⟩ from rfl,
      show exC1.getD (exC1.length - 1) origin = ⟨0, 0⟩ from rfl,
      perp_zero_chord_axis 6 (by norm_num)]
    norm_num
  have s7 : rdpStep exC1 (6, 6) 7 = (7, 7) := by
    rw [rdpStep, show exC1.getD 7 origin = ⟨7, 0⟩ from rfl,
      show exC1.getD 0 origin = ⟨0, 0⟩ from rfl,
      show exC1.getD (exC1.length - 1) origin = ⟨0, 0⟩ from rfl,
      perp_zero_chord_axis 7 (by norm_num)]
    norm_num
  have s8 : rdpStep exC1 (7, 7) 8 = (8, 8) := by
    rw [rdpStep, show exC1.getD 8 origin = ⟨8, 0⟩ from rfl,
      show exC1.getD 0 origin = ⟨0, 0⟩ from rfl,
      show exC1.getD (exC1.length - 1) origin = ⟨0, 0⟩ from rfl,
      perp_zero_chord_axis 8 (by norm_num)]
    norm_num
  rw [rdpScan, show exC1.length - 2 = 8 from rfl,
    show List.range' 1 8 = [1, 2, 3, 4, 5, 6, 7, 8] from rfl]
  rw [List.foldl_cons, s1, List.foldl_cons, s2, List.foldl_cons, s3, List.foldl_cons, s4,
    List.foldl_cons, s5, List.foldl_cons, s6, List.foldl_cons, s7, List.foldl_cons, s8,
    List.foldl_nil]

theorem exC1a_scan : rdpScan exC1a = (0, 0) := by
  have s1 : rdpStep exC1a (0, 0) 1 = (0, 0) := by
    rw [rdpStep, show exC1a.getD 1 origin = ⟨1, 0⟩ from rfl,
      show exC1a.getD 0 origin = ⟨0, 0⟩ from rfl,
      show exC1a.getD (exC1a.length - 1) origin = ⟨8, 0⟩ from rfl,
      perp_horizontal_chord 1]
    norm_num
  have s2 : rdpStep exC1a (0, 0) 2 = (0, 0) := by
    rw [rdpStep, show exC1a.getD 2 origin = ⟨2, 0⟩ from rfl,
      show exC1a.getD 0 origin = ⟨0, 0⟩ from rfl,
      show exC1a.getD (exC1a.length - 1) origin = ⟨8, 0⟩ from rfl,
      perp_horizontal_chord 2]
    norm_num
  have s3 : rdpStep exC1a (0, 0) 3 = (0, 0) := by
    rw [rdpStep, show exC1a.getD 3 origin = ⟨3, 0⟩ from rfl,
      show exC1a.getD 0 origin = ⟨0, 0⟩ from rfl,
      show exC1a.getD (exC1a.length - 1) origin = ⟨8, 0⟩ from rfl,
      perp_horizontal_chord 3]
    norm_num
  have s4 : rdpStep exC1a (0, 0) 4 = (0, 0) := by
    rw [rdpStep, show exC1a.getD 4 origin = ⟨4, 0⟩ from rfl,
      show exC1a.getD 0 origin = ⟨0, 0⟩ from rfl,
      show exC1a.getD (exC1a.length - 1) origin = ⟨8, 0⟩ from rfl,
      perp_horizontal_chord 4]
    norm_num
  have s5 : rdpStep exC1a (0, 0) 5 = (0, 0) := by
    rw [rdpStep, show exC1a.getD 5 origin = ⟨5, 0⟩ from rfl,
      show exC1a.getD 0 origin = ⟨0, 0⟩ from rfl,
      show exC1a.getD (exC1a.length - 1) origin = ⟨8, 0⟩ from rfl,
      perp_horizontal_chord 5]
    norm_num
  have s6 : rdpStep exC1a (0, 0) 6 = (0, 0) := by
    rw [rdpStep, show exC1a.getD 6 origin = ⟨6, 0⟩ from rfl,
      show exC1a.getD 0 origin = ⟨0, 0⟩ from rfl,
      show exC1a.getD (exC1a.length - 1) origin = ⟨8, 0⟩ from rfl,
      perp_horizontal_chord 6]
    norm_num
  have s7 : rdpStep exC1a (0, 0) 7 = (0, 0) := by
    rw [rdpStep, show exC1a.getD 7 origin = ⟨7, 0⟩ from rfl,
      show exC1a.getD 0 origin = ⟨0, 0⟩ from rfl,
      show exC1a.getD (exC1a.length - 1) origin = ⟨8, 0⟩ from rfl,
      perp_horizontal_chord 7]
    norm_num
  rw [rdpScan, show exC1a.length - 2 = 7 from rfl,
    show List.range' 1 7 = [1, 2, 3, 4, 5, 6, 7] from rfl]
  rw [List.foldl_cons, s1, List.foldl_cons, s2, List.foldl_cons, s3, List.foldl_cons, s4,
    List.foldl_cons, s5, List.foldl_cons, s6, List.foldl_cons, s7, List.foldl_nil]

theorem exC1_minX : minXOf exC1 = 0 := by
  simp only [minXOf, startOf, exC1, List.headI, List.foldl_cons, List.foldl_nil]
  norm_num [min_def]

theorem exC1_maxX : maxXOf exC1 = 8 := by
  simp only [maxXOf, startOf, exC1, List.headI, List.foldl_cons, List.foldl_nil]
  norm_num [max_def]

theorem exC1_minY : minYOf exC1 = 0 := by
  simp only [minYOf, startOf, exC1, List.headI, List.foldl_cons, List.foldl_nil]
  norm_num [min_def]

theorem exC1_maxY : maxYOf exC1 = 0 := by
  simp only [maxYOf, startOf, exC1, List.headI, List.foldl_cons, List.foldl_nil]
  norm_num [max_def]

theorem exC1_width : widthOf exC1 = 8 := by
  rw [widthOf, exC1_maxX, exC1_minX]
  norm_num

theorem exC1_height : heightOf exC1 = 0 := by
  rw [heightOf, exC1_maxY, exC1_minY]
  norm_num

theorem exC1_diag : diagOf exC1 = 8 := by
  rw [diagOf, exC1_width, exC1_height]
  norm_num [sqrt_sixtyfour]

theorem exC1_eps : epsilonOf exC1 = 5 := by
  rw [epsilonOf, exC1_diag]
  norm_num [max_def]

theorem exC1_linearity : linearityOf exC1 = 0 := by
  have hd : getDistance (startOf exC1) (endOf exC1) = 0 := by
    rw [show startOf exC1 = ⟨0, 0⟩ from rfl, show endOf exC1 = ⟨0, 0⟩ from rfl]
    exact getDistance_self _
  rw [linearityOf, hd, zero_div]

theorem exC1_fill : fillRatioOf exC1 = 0 := by
  rw [fillRatioOf, exC1_height, mul_zero, div_zero]

theorem exC1_simplified : simplifiedOf exC1 = [⟨0, 0⟩, ⟨8, 0⟩, ⟨0, 0⟩] := by
  rw [simplifiedOf, exC1_eps, ramerDouglasPeucker]
  rw [show exC1.length = 10 from rfl, show (10 : ℕ) = 9 + 1 from rfl]
  rw [rdpFuel_succ_pos 9 exC1 5 (by norm_num [exC1])
    (by rw [exC1_scan]; norm_num)]
  rw [exC1_scan]
  rw [show exC1.take (((8 : ℝ), (8 : ℕ)).2 + 1) = exC1a from rfl,
    show exC1.drop ((8 : ℝ), (8 : ℕ)).2 = [(⟨8, 0⟩ : Point), ⟨0, 0⟩] from rfl]
  rw [rdpFuel_short 9 [(⟨8, 0⟩ : Point), ⟨0, 0⟩] 5 (by norm_num)]
  rw [show (9 : ℕ) = 8 + 1 from rfl]
  rw [rdpFuel_succ_neg 8 exC1a 5 (by norm_num [exC1a])
    (by rw [exC1a_scan]; norm_num)]
  rfl

theorem exC1_vertices : verticesOf exC1 = [⟨0, 0⟩, ⟨8, 0⟩, ⟨0, 0⟩] := by
  simp only [verticesOf]
  rw [exC1_simplified]
  rw [if_neg (by simp : ¬(isClosedOf exC1 ∧
    3 < ([(⟨0, 0⟩ : Point), ⟨8, 0⟩, ⟨0, 0⟩] : List Point).length))]

theorem exC1_vcount : vCountOf exC1 = 3 := by
  rw [vCountOf, exC1_vertices]
  rfl

theorem exC1_analyze :
    analyzeShape exC1 =
      ⟨ShapeType.triangle, 0.9,
        ShapeData.triangleData (centerXOf exC1) (centerYOf exC1)
          (widthOf exC1) (heightOf exC1)⟩ := by
  unfold analyzeShape
  rw [if_neg (by norm_num [exC1] : ¬exC1.length < 10),
    if_neg (by rw [exC1_linearity]; norm_num : ¬linearityOf exC1 > 0.94),
    if_neg (by rw [exC1_fill]; norm_num : ¬fillRatioOf exC1 > 0.80),
    if_pos exC1_vcount]

/-- Claim C1 counterexample: `exC1` has 10 points and a zero-height
(hence zero-area) bounding box, yet `analyzeShape` classifies it as a
triangle, not `unknown`. -/
theorem c1_counterexample :
    10 ≤ exC1.length ∧ heightOf exC1 = 0 ∧
      (analyzeShape exC1).type = ShapeType.triangle :=
  ⟨by norm_num [exC1], exC1_height, by rw [exC1_analyze]⟩

/-- Claim C1 (amended): for a stroke of 10 or more points with a
degenerate bounding box, the fill ratio evaluates to 0 (no undefined
value arises in the real-number model, where division by zero is 0),
so the fill-shortcut rectangle, the circle, and the fuzzy-triangle
branches can never fire: any `rect` or `triangle` result comes from
the vertex-count stage with score 0.9, and the result can also be
`line` or `unknown` — but it is not always `unknown`. -/
theorem c1_degenerate_box (points : List Point) (h10 : 10 ≤ points.length)
    (hdeg : widthOf points = 0 ∨ heightOf points = 0) :
    fillRatioOf points = 0 ∧
      (analyzeShape points).type ≠ ShapeType.circle ∧
      ((analyzeShape points).type = ShapeType.rect →
        (analyzeShape points).score = 0.9) ∧
      ((analyzeShape points).type = ShapeType.triangle →
        (analyzeShape points).score = 0.9) := by
  have hfr : fillRatioOf points = 0 := by
    rw [fillRatioOf]
    rcases hdeg with h | h
    · rw [h, zero_mul, div_zero]
    · rw [h, mul_zero, div_zero]
  refine ⟨hfr, ?_⟩
  unfold analyzeShape
  split_ifs with h1 h2 h3 h4 h5 h6 h7
  · exact absurd h1 (by omega)
  · simp
  · rw [hfr] at h3
    norm_num at h3
  · simp
  · simp
  · rw [hfr] at h6
    norm_num at h6
  · rw [hfr] at h7
    norm_num at h7
  · simp

theorem c1_witness :
    fillRatioOf exC1 = 0 ∧
      (analyzeShape exC1).type ≠ ShapeType.circle ∧
      ((analyzeShape exC1).type = ShapeType.rect →
        (analyzeShape exC1).score = 0.9) ∧
      ((analyzeShape exC1).type = ShapeType.triangle →
        (analyzeShape exC1).score = 0.9) :=
  c1_degenerate_box exC1 (by norm_num [exC1]) (Or.inr exC1_height)

theorem sqrt_twofive_pos : 0 < Real.sqrt 2.5 := Real.sqrt_pos.mpr (by norm_num)

theorem sqrt_twofive_gt : (1.5 : ℝ) < Real.sqrt 2.5 :=
  (Real.lt_sqrt (by norm_num)).mpr (by norm_num)

theorem sqrt_fifty_lt : Real.sqrt 50 < 8 :=
  (Real.sqrt_lt' (by norm_num)).mpr (by norm_num)

theorem sqrt_sixtwofive : Real.sqrt 6.25 = 2.5 :=
  sqrt_eq_of_sq 6.25 2.5 (by norm_num) (by norm_num)

theorem sqrt_twentyfive : Real.sqrt 25 = 5 := sqrt_eq_of_sq 25 5 (by norm_num) (by norm_num)

/-- Twelve points of the circle of radius 2.5 about the origin, all
with rational coordinates (scaled 3-4-5 triples), in drawing order. -/
def exC6 : List Point :=
  [⟨2.5, 0⟩, ⟨2, 1.5⟩, ⟨1.5, 2⟩, ⟨0, 2.5⟩, ⟨-1.5, 2⟩, ⟨-2, 1.5⟩,
   ⟨-2.5, 0⟩, ⟨-2, -1.5⟩, ⟨-1.5, -2⟩, ⟨0, -2.5⟩, ⟨1.5, -2⟩, ⟨2, -1.5⟩]

theorem exC6_minX : minXOf exC6 = -2.5 := by
  simp only [minXOf, startOf, exC6, List.headI, List.foldl_cons, List.foldl_nil]
  norm_num [min_def]

theorem exC6_maxX : maxXOf exC6 = 2.5 := by
  simp only [maxXOf, startOf, exC6, List.headI, List.foldl_cons, List.foldl_nil]
  norm_num [max_def]

theorem exC6_minY : minYOf exC6 = -2.5 := by
  simp only [minYOf, startOf, exC6, List.headI, List.foldl_cons, List.foldl_nil]
  norm_num [min_def]

theorem exC6_maxY : maxYOf exC6 = 2.5 := by
  simp only [maxYOf, startOf, exC6, List.headI, List.foldl_cons, List.foldl_nil]
  norm_num [max_def]

theorem exC6_width : widthOf exC6 = 5 := by
  rw [widthOf, exC6_maxX, exC6_minX]
  norm_num

theorem exC6_height : heightOf exC6 = 5 := by
  rw [heightOf, exC6_maxY, exC6_minY]
  norm_num

theorem exC6_diag : diagOf exC6 = Real.sqrt 50 := by
  rw [diagOf, exC6_width, exC6_height]
  norm_num

theorem exC6_eps : epsilonOf exC6 = 5 := by
  rw [epsilonOf, exC6_diag]
  apply max_eq_left
  nlinarith [sqrt_fifty_lt, Real.sqrt_nonneg 50]

theorem exC6_centerX : centerXOf exC6 = 0 := by
  rw [centerXOf, exC6_minX, exC6_width]
  norm_num

theorem exC6_centerY : centerYOf exC6 = 0 := by
  rw [centerYOf, exC6_minY, exC6_height]
  norm_num

theorem exC6_pathLength :
    getPathLength exC6 = 7 * Real.sqrt 2.5 + 4 * Real.sqrt 0.5 := by
  simp only [exC6, getPathLength, getDistance]
  norm_num
  ring

theorem exC6_displacement :
    getDistance (startOf exC6) (endOf exC6) = Real.sqrt 2.5 := by
  rw [show startOf exC6 = ⟨2.5, 0⟩ from rfl, show endOf exC6 = ⟨2, -1.5⟩ from rfl,
    getDistance]
  norm_num

theorem exC6_linearity_le : ¬(linearityOf exC6 > 0.94) := by
  rw [linearityOf, exC6_displacement, exC6_pathLength, gt_iff_lt, not_lt]
  have h1 := sqrt_twofive_pos
  have h2 := Real.sqrt_nonneg 0.5
  rw [div_le_iff (by linarith)]
  nlinarith

theorem exC6_shoelace : shoelaceSum exC6 = 37 := by
  have h : shoelaceSum exC6 =
      0 + ((2.5 : ℝ) * 1.5 - 2 * 0) + (2 * 2 - 1.5 * 1.5) + (1.5 * 2.5 - 0 * 2) +
        (0 * 2 - (-1.5) * 2.5) + ((-1.5) * 1.5 - (-2) * 2) + ((-2) * 0 - (-2.5) * 1.5) +
        ((-2.5) * (-1.5) - (-2) * 0) + ((-2) * (-2) - (-1.5) * (-1.5)) +
        ((-1.5) * (-2.5) - 0 * (-2)) + (0 * (-2) - 1.5 * (-2.5)) +
        (1.5 * (-1.5) - 2 * (-2)) + (2 * 0 - 2.5 * (-1.5)) := rfl
  rw [h]
  norm_num

theorem exC6_area : areaOf exC6 = 18.5 := by
  rw [areaOf, exC6_shoelace]
  norm_num

theorem exC6_fill : fillRatioOf exC6 = 0.74 := by
  rw [fillRatioOf, exC6_area, exC6_width, exC6_height]
  norm_num

theorem exC6_scan : rdpScan exC6 = (7.5 / Real.sqrt 2.5, 5) := by
  have hs := sqrt_twofive_pos
  have key : ∀ a b : ℝ, a < b → a / Real.sqrt 2.5 < b / Real.sqrt 2.5 :=
    fun a b h => (div_lt_div_right hs).mpr h
  have hd1 : perpendicularDistance ⟨2, 1.5⟩ ⟨2.5, 0⟩ ⟨2, -1.5⟩ = 1.5 / Real.sqrt 2.5 := by
    rw [perpendicularDistance_eq _ _ _ (by norm_num)]
    norm_num [abs_of_nonneg]
  have hd2 : perpendicularDistance ⟨1.5, 2⟩ ⟨2.5, 0⟩ ⟨2, -1.5⟩ = 2.5 / Real.sqrt 2.5 := by
    rw [perpendicularDistance_eq _ _ _ (by norm_num)]
    norm_num [abs_of_nonneg]
  have hd3 : perpendicularDistance ⟨0, 2.5⟩ ⟨2.5, 0⟩ ⟨2, -1.5⟩ = 5 / Real.sqrt 2.5 := by
    rw [perpendicularDistance_eq _ _ _ (by norm_num)]
    norm_num [abs_of_nonneg]
  have hd4 : perpendicularDistance ⟨-1.5, 2⟩ ⟨2.5, 0⟩ ⟨2, -1.5⟩ = 7 / Real.sqrt 2.5 := by
    rw [perpendicularDistance_eq _ _ _ (by norm_num)]
    norm_num [abs_of_nonneg]
  have hd5 : perpendicularDistance ⟨-2, 1.5⟩ ⟨2.5, 0⟩ ⟨2, -1.5⟩ = 7.5 / Real.sqrt 2.5 := by
    rw [perpendicularDistance_eq _ _ _ (by norm_num)]
    norm_num [abs_of_nonneg]
  have hd6 : perpendicularDistance ⟨-2.5, 0⟩ ⟨2.5, 0⟩ ⟨2, -1.5⟩ = 7.5 / Real.sqrt 2.5 := by
    rw [perpendicularDistance_eq _ _ _ (by norm_num)]
    norm_num [abs_of_nonneg]
  have hd7 : perpendicularDistance ⟨-2, -1.5⟩ ⟨2.5, 0⟩ ⟨2, -1.5⟩ = 6 / Real.sqrt 2.5 := by
    rw [perpendicularDistance_eq _ _ _ (by norm_num)]
    norm_num [abs_of_nonneg]
  have hd8 : perpendicularDistance ⟨-1.5, -2⟩ ⟨2.5, 0⟩ ⟨2, -1.5⟩ = 5 / Real.sqrt 2.5 := by
    rw [perpendicularDistance_eq _ _ _ (by norm_num)]
    norm_num [abs_of_nonneg]
  have hd9 : perpendicularDistance ⟨0, -2.5⟩ ⟨2.5, 0⟩ ⟨2, -1.5⟩ = 2.5 / Real.sqrt 2.5 := by
    rw [perpendicularDistance_eq _ _ _ (by norm_num)]
    norm_num [abs_of_nonneg]
  have hd10 : perpendicularDistance ⟨1.5, -2⟩ ⟨2.5, 0⟩ ⟨2, -1.5⟩ = 0.5 / Real.sqrt 2.5 := by
    rw [perpendicularDistance_eq _ _ _ (by norm_num)]
    norm_num [abs_of_nonneg]
  have hp1 : (1.5 : ℝ) / Real.sqrt 2.5 > 0 := div_pos (by norm_num) hs
  have hp2 : (2.5 : ℝ) / Real.sqrt 2.5 > 1.5 / Real.sqrt 2.5 := key 1.5 2.5 (by norm_num)
  have hp3 : (5 : ℝ) / Real.sqrt 2.5 > 2.5 / Real.sqrt 2.5 := key 2.5 5 (by norm_num)
  have hp4 : (7 : ℝ) / Real.sqrt 2.5 > 5 / Real.sqrt 2.5 := key 5 7 (by norm_num)
  have hp5 : (7.5 : ℝ) / Real.sqrt 2.5 > 7 / Real.sqrt 2.5 := key 7 7.5 (by norm_num)
  have hn6 : ¬((7.5 : ℝ) / Real.sqrt 2.5 > 7.5 / Real.sqrt 2.5) := lt_irrefl _
  have hn7 : ¬((6 : ℝ) / Real.sqrt 2.5 > 7.5 / Real.sqrt 2.5) :=
    not_lt.mpr (le_of_lt (key 6 7.5 (by norm_num)))
  have hn8 : ¬((5 : ℝ) / Real.sqrt 2.5 > 7.5 / Real.sqrt 2.5) :=
    not_lt.mpr (le_of_lt (key 5 7.5 (by norm_num)))
  have hn9 : ¬((2.5 : ℝ) / Real.sqrt 2.5 > 7.5 / Real.sqrt 2.5) :=
    not_lt.mpr (le_of_lt (key 2.5 7.5 (by norm_num)))
  have hn10 : ¬((0.5 : ℝ) / Real.sqrt 2.5 > 7.5 / Real.sqrt 2.5) :=
    not_lt.mpr (le_of_lt (key 0.5 7.5 (by norm_num)))
  have t1 : rdpStep exC6 (0, 0) 1 = (1.5 / Real.sqrt 2.5, 1) := by
    rw [rdpStep, show exC6.getD 1 origin = ⟨2, 1.5⟩ from rfl,
      show exC6.getD 0 origin = ⟨2.5, 0⟩ from rfl,
      show exC6.getD (exC6.length - 1) origin = ⟨2, -1.5⟩ from rfl, hd1]
    dsimp only
    rw [if_pos hp1]
  have t2 : rdpStep exC6 (1.5 / Real.sqrt 2.5, 1) 2 = (2.5 / Real.sqrt 2.5, 2) := by
    rw [rdpStep, show exC6.getD 2 origin = ⟨1.5, 2⟩ from rfl,
      show exC6.getD 0 origin = ⟨2.5, 0⟩ from rfl,
      show exC6.getD (exC6.length - 1) origin = ⟨2, -1.5⟩ from rfl, hd2]
    dsimp only
    rw [if_pos hp2]
  have t3 : rdpStep exC6 (2.5 / Real.sqrt 2.5, 2) 3 = (5 / Real.sqrt 2.5, 3) := by
    rw [rdpStep, show exC6.getD 3 origin = ⟨0, 2.5⟩ from rfl,
      show exC6.getD 0 origin = ⟨2.5, 0⟩ from rfl,
      show exC6.getD (exC6.length - 1) origin = ⟨2, -1.5⟩ from rfl, hd3]
    dsimp only
    rw [if_pos hp3]
  have t4 : rdpStep exC6 (5 / Real.sqrt 2.5, 3) 4 = (7 / Real.sqrt 2.5, 4) := by
    rw [rdpStep, show exC6.getD 4 origin = ⟨-1.5, 2⟩ from rfl,
      show exC6.getD 0 origin = ⟨2.5, 0⟩ from rfl,
      show exC6.getD (exC6.length - 1) origin = ⟨2, -1.5⟩ from rfl, hd4]
    dsimp only
    rw [if_pos hp4]
  have t5 : rdpStep exC6 (7 / Real.sqrt 2.5, 4) 5 = (7.5 / Real.sqrt 2.5, 5) := by
    rw [rdpStep, show exC6.getD 5 origin = ⟨-2, 1.5⟩ from rfl,
      show exC6.getD 0 origin = ⟨2.5, 0⟩ from rfl,
      show exC6.getD (exC6.length - 1) origin = ⟨2, -1.5⟩ from rfl, hd5]
    dsimp only
    rw [if_pos hp5]
  have t6 : rdpStep exC6 (7.5 / Real.sqrt 2.5, 5) 6 = (7.5 / Real.sqrt 2.5, 5) := by
    rw [rdpStep, show exC6.getD 6 origin = ⟨-2.5, 0⟩ from rfl,
      show exC6.getD 0 origin = ⟨2.5, 0⟩ from rfl,
      show exC6.getD (exC6.length - 1) origin = ⟨2, -1.5⟩ from rfl, hd6]
    dsimp only
    rw [if_neg hn6]
  have t7 : rdpStep exC6 (7.5 / Real.sqrt 2.5, 5) 7 = (7.5 / Real.sqrt 2.5, 5) := by
    rw [rdpStep, show exC6.getD 7 origin = ⟨-2, -1.5⟩ from rfl,
      show exC6.getD 0 origin = ⟨2.5, 0⟩ from rfl,
      show exC6.getD (exC6.length - 1) origin = ⟨2, -1.5⟩ from rfl, hd7]
    dsimp only
    rw [if_neg hn7]
  have t8 : rdpStep exC6 (7.5 / Real.sqrt 2.5, 5) 8 = (7.5 / Real.sqrt 2.5, 5) := by
    rw [rdpStep, show exC6.getD 8 origin = ⟨-1.5, -2⟩ from rfl,
      show exC6.getD 0 origin = ⟨2.5, 0⟩ from rfl,
      show exC6.getD (exC6.length - 1) origin = ⟨2, -1.5⟩ from rfl, hd8]
    dsimp only
    rw [if_neg hn8]
  have t9 : rdpStep exC6 (7.5 / Real.sqrt 2.5, 5) 9 = (7.5 / Real.sqrt 2.5, 5) := by
    rw [rdpStep, show exC6.getD 9 origin = ⟨0, -2.5⟩ from rfl,
      show exC6.getD 0 origin = ⟨2.5, 0⟩ from rfl,
      show exC6.getD (exC6.length - 1) origin = ⟨2, -1.5⟩ from rfl, hd9]
    dsimp only
    rw [if_neg hn9]
  have t10 : rdpStep exC6 (7.5 / Real.sqrt 2.5, 5) 10 = (7.5 / Real.sqrt 2.5, 5) := by
    rw [rdpStep, show exC6.getD 10 origin = ⟨1.5, -2⟩ from rfl,
      show exC6.getD 0 origin = ⟨2.5, 0⟩ from rfl,
      show exC6.getD (exC6.length - 1) origin = ⟨2, -1.5⟩ from rfl, hd10]
    dsimp only
    rw [if_neg hn10]
  rw [rdpScan, show exC6.length - 2 = 10 from rfl,
    show List.range' 1 10 = [1, 2, 3, 4, 5, 6, 7, 8, 9, 10] from rfl]
  rw [List.foldl_cons, t1, List.foldl_cons, t2, List.foldl_cons, t3, List.foldl_cons, t4,
    List.foldl_cons, t5, List.foldl_cons, t6, List.foldl_cons, t7, List.foldl_cons, t8,
    List.foldl_cons, t9, List.foldl_cons, t10, List.foldl_nil]

theorem exC6_scan_small : ¬((rdpScan exC6).1 > 5) := by
  rw [exC6_scan]
  dsimp only
  rw [gt_iff_lt, not_lt, div_le_iff sqrt_twofive_pos]
  nlinarith [sqrt_twofive_gt]

theorem exC6_simplified : simplifiedOf exC6 = [⟨2.5, 0⟩, ⟨2, -1.5⟩] := by
  rw [simplifiedOf, exC6_eps, ramerDouglasPeucker]
  rw [show exC6.length = 12 from rfl, show (12 : ℕ) = 11 + 1 from rfl]
  rw [rdpFuel_succ_neg 11 exC6 5 (by norm_num [exC6]) exC6_scan_small]
  rfl

theorem exC6_not_closed : ¬isClosedOf exC6 := by
  rw [isClosedOf, exC6_simplified, exC6_diag]
  have h1 : getDistance ⟨2.5, 0⟩ ⟨2, -1.5⟩ = Real.sqrt 2.5 := by
    rw [getDistance]
    norm_num
  have h2 : getDistance (startOf exC6) (endOf exC6) = Real.sqrt 2.5 := exC6_displacement
  rintro (h | h)
  · rw [show ([(⟨2.5, 0⟩ : Point), ⟨2, -1.5⟩] : List Point).headI = ⟨2.5, 0⟩ from rfl,
      show ([(⟨2.5, 0⟩ : Point), ⟨2, -1.5⟩] : List Point).getD
        (([(⟨2.5, 0⟩ : Point), ⟨2, -1.5⟩] : List Point).length - 1) origin = ⟨2, -1.5⟩
        from rfl, h1] at h
    nlinarith [sqrt_twofive_gt, sqrt_fifty_lt]
  · rw [h2] at h
    nlinarith [sqrt_twofive_gt, sqrt_fifty_lt]

theorem exC6_vertices : verticesOf exC6 = [⟨2.5, 0⟩, ⟨2, -1.5⟩] := by
  simp only [verticesOf]
  rw [if_neg (fun hc => exC6_not_closed hc.1), exC6_simplified]

theorem exC6_vcount : vCountOf exC6 = 2 := by
  rw [vCountOf, exC6_vertices]
  rfl

theorem exC6_avg : avgRadiusOf exC6 = 2.5 := by
  rw [avgRadiusOf, exC6_centerX, exC6_centerY]
  simp only [exC6, List.foldl_cons, List.foldl_nil, getDistance]
  norm_num [sqrt_twentyfive, sqrt_four]

theorem exC6_variance : radiusVarianceOf exC6 = 0 := by
  rw [radiusVarianceOf, exC6_centerX, exC6_centerY, exC6_avg]
  simp only [exC6, List.foldl_cons, List.foldl_nil, getDistance]
  norm_num [sqrt_twentyfive, sqrt_four]

theorem exC6_nv : normalizedVarianceOf exC6 = 0 := by
  rw [normalizedVarianceOf, exC6_variance, zero_div]

/-- Claim C6: once the pipeline reaches the circularity stage (10 or
more points, line test failed, fill shortcut failed, vertex count not
3 and not between 4 and 6), the result is the circle built from the
bounding-box center and the mean radius with score `1 − variance /
mean²` exactly when the normalized variance is below 0.05 and the fill
ratio exceeds 0.6. -/
theorem c6_circle_stage (points : List Point) (h10 : 10 ≤ points.length)
    (hl : ¬(linearityOf points > 0.94)) (hf : ¬(fillRatioOf points > 0.80))
    (hv3 : ¬(vCountOf points = 3))
    (hv46 : ¬(4 ≤ vCountOf points ∧ vCountOf points ≤ 6)) :
    analyzeShape points =
        ⟨ShapeType.circle, 1 - normalizedVarianceOf points,
          ShapeData.circleData (centerXOf points) (centerYOf points)
            (avgRadiusOf points)⟩ ↔
      (normalizedVarianceOf points < 0.05 ∧ fillRatioOf points > 0.6) := by
  unfold analyzeShape
  rw [if_neg (by omega : ¬points.length < 10), if_neg hl, if_neg hf, if_neg hv3,
    if_neg hv46]
  constructor
  · intro h
    by_contra hc
    rw [if_neg hc] at h
    split_ifs at h with h7
    · exact absurd (congrArg ShapeAnalysis.type h) (by simp)
    · exact absurd (congrArg ShapeAnalysis.type h) (by simp)
  · intro hc
    rw [if_pos hc]

theorem c6_witness :
    analyzeShape exC6 =
      ⟨ShapeType.circle, 1 - normalizedVarianceOf exC6,
        ShapeData.circleData (centerXOf exC6) (centerYOf exC6)
          (avgRadiusOf exC6)⟩ :=
  (c6_circle_stage exC6 (by norm_num [exC6]) exC6_linearity_le
    (by rw [exC6_fill]; norm_num)
    (by rw [exC6_vcount]; norm_num)
    (by rw [exC6_vcount]; omega)).mpr
    ⟨by rw [exC6_nv]; norm_num, by rw [exC6_fill]; norm_num⟩

/-- Claim C9: the classifier is a pure function of the point list:
equal inputs give identical results (in this embedding `analyzeShape`
is a mathematical function, so purity and non-mutation hold by
construction). -/
theorem c9_pure (points qoints : List Point) (h : points = qoints) :
    analyzeShape points = analyzeShape qoints := by
  rw [h]

theorem c9_witness : analyzeShape [] = analyzeShape [] :=
  c9_pure [] [] rfl

end
